import Mathlib

/-!
Verification development for the obsidian-copilot backend.

Each Python function relevant to the checked properties is shallowly
embedded as an executable Lean definition, translated from the source in
`src/`:

* `src/app.py` — token estimation, hit ranking and greedy context assembly
  (`estimate_tokens`, the ranking step of `get_context_for_claude`, and the
  per-strategy greedy accept loop);
* `src/utils/retry.py` — `CircuitBreaker` and `retry_with_backoff`;
* `src/agent_memory.py` — `AgentMemory.store_memory`,
  `AgentMemory._format_memory_content`, `AgentMemory.recall_memories`;
* `src/scheduler.py` — `AgentScheduler.record_execution` and
  `AgentScheduler.trigger_agent` (history bookkeeping);
* `src/agents_enhanced.py` — `ParallelExecutor.execute_parallel`,
  `EnhancedVaultAnalyzer._find_tag_clusters`,
  `EnhancedVaultAnalyzer._generate_insights`.

Python `dict`s are modelled as insertion-ordered association lists, Python
`set`s as duplicate-free lists (membership facts proved here do not depend
on iteration order), machine floats as rationals, wall-clock times as
rationals, and raised exceptions as `Except` errors.
-/

namespace Copilot

/-- Last `n` elements of a list (`l[len-n:]` for `1 ≤ n ≤ len`). -/
def lastN (n : Nat) (l : List α) : List α :=
  l.drop (l.length - n)

/-- Python slice `l[-n:]`: for `n = 0` this is `l[0:] = l` (the whole
list), otherwise the last `n` elements. Faithful to CPython semantics of
negative-index slicing used by `recall_memories`. -/
def pySliceLast (n : Nat) (l : List α) : List α :=
  if n = 0 then l else lastN n l

/-- Keep the first occurrence of every element, preserving order
(Python dict-insertion order of first-seen keys). -/
def dedupKeepFirst (l : List String) : List String :=
  l.foldl (fun acc x => if acc.contains x then acc else acc ++ [x]) []

/-! ### `src/app.py`: token estimation, ranking, context assembly -/

/-- Embeds `estimate_tokens(text) = len(text) // 4` (src/app.py lines 287-299). -/
def estimate_tokens (text : String) : Nat :=
  text.length / 4

/-- One retrieval hit: document id plus zero-based rank within its own
source (built by `parse_os_response` / `parse_semantic_response`). -/
structure Hit where
  id : String
  rank : Nat
deriving Repr, DecidableEq

/-- Per-hit score `10 - rank` (src/app.py line 322); ranks above 10 give a
negative score, hence `Int`. -/
def hitScore (h : Hit) : Int :=
  10 - (h.rank : Int)

/-- Aggregate score of document `d`: sum of `10 - rank` over every hit for
`d` across both sources (`df.groupby("id").agg(score=sum)`). -/
def aggScore (hits : List Hit) (d : String) : Int :=
  ((hits.filter (fun h => h.id = d)).map hitScore).sum

/-- Lexicographic strict order on code-point sequences — how Python (and
hence pandas `groupby(sort=True)`) compares `str` keys. -/
def charsLt : List Char → List Char → Bool
  | _, [] => false
  | [], _ :: _ => true
  | c :: cs, d :: ds =>
    if c.val < d.val then true
    else if d.val < c.val then false
    else charsLt cs ds

/-- Boolean `a ≤ b` on strings by code points. -/
def strLeb (a b : String) : Bool :=
  !(charsLt b.data a.data)

/-- Insertion into a list of strings sorted ascending (lexicographic). -/
def insertAsc (x : String) : List String → List String
  | [] => [x]
  | y :: ys => if strLeb x y then x :: y :: ys else y :: insertAsc x ys

/-- Ascending lexicographic sort of strings. -/
def sortAsc (l : List String) : List String :=
  l.foldr insertAsc []

/-- The distinct document ids of a hit list in ascending id order: pandas
`groupby("id")` (default `sort=True`) sorts the group keys, so the
aggregated frame is id-sorted, independent of the input row order. -/
def groupIds (hits : List Hit) : List String :=
  sortAsc (dedupKeepFirst (hits.map Hit.id))

/-- Stable insertion of a scored id into a list sorted descending by
score: an element moves ahead only of strictly smaller scores, so elements
with equal scores keep their relative order. -/
def insertDesc (x : String × Int) : List (String × Int) → List (String × Int)
  | [] => [x]
  | y :: ys => if y.2 ≤ x.2 then x :: y :: ys else y :: insertDesc x ys

/-- Stable sort descending by aggregate score. -/
def sortDesc (l : List (String × Int)) : List (String × Int) :=
  l.foldr insertDesc []

/-- The ranking step of `get_context_for_claude` (src/app.py lines
320-328): group hits by id (pandas sorts the group keys), sum per-hit
scores per id, sort descending by aggregate score, and read the id column.
The output is a function of the id-sorted aggregate table only: the input
row order is destroyed by the groupby. -/
def rankIds (hits : List Hit) : List String :=
  (sortDesc ((groupIds hits).map (fun d => (d, aggScore hits d)))).map Prod.fst

/-- One vault entry: `vault[id]` has a `title` and a `chunk` text. -/
structure VaultDoc where
  title : String
  chunk : String

/-- Kind tag of a context item (`"full_document"` or `"chunk"`). -/
inductive PartKind where
  | fullDocument
  | chunk
deriving Repr, DecidableEq

/-- One entry of `context_parts`: title, content, type. -/
structure ContextPart where
  title : String
  content : String
  kind : PartKind
deriving Repr, DecidableEq

/-- Context strategies (src/app.py lines 174-178). -/
inductive ContextStrategy where
  | fullDocs
  | smartChunks
  | hierarchical
deriving Repr, DecidableEq

/-- Group the chunks of the ranked ids by document title, in first-seen
order of titles (Python dict insertion order), each title keeping its
chunks in ranked order (src/app.py lines 336-341). -/
def docGroups (vault : String → VaultDoc) (ids : List String) : List (String × List String) :=
  ids.foldl
    (fun acc i =>
      let t := (vault i).title
      if acc.any (fun p => p.1 = t) then
        acc.map (fun p => if p.1 = t then (p.1, p.2 ++ [(vault i).chunk]) else p)
      else
        acc ++ [(t, [(vault i).chunk])])
    []

/-- Token cost of one context item, as the loops compute it
(`estimate_tokens` of the item's content). -/
def partTokens (p : ContextPart) : Nat :=
  estimate_tokens p.content

/-- Total token cost of a list of context items. -/
def sumTokens (l : List ContextPart) : Nat :=
  (l.map partTokens).sum

/-- The greedy accept loop shared by the `full_docs` and `smart_chunks`
branches (src/app.py lines 343-356 and 364-379): accept the next item when
`token_count + item_tokens <= max_tokens`, otherwise `break` — the first
overflowing item stops the loop. Returns the accepted items and the final
`token_count`, starting from accumulator `used`. -/
def assemble (budget : Nat) : List ContextPart → Nat → List ContextPart × Nat
  | [], used => ([], used)
  | p :: rest, used =>
    if used + partTokens p ≤ budget then
      let r := assemble budget rest (used + partTokens p)
      (p :: r.1, r.2)
    else
      ([], used)

/-- The item list each strategy iterates over: the `full_docs` branch is
taken when the strategy is FULL_DOCS **or** `include_full_docs` is set;
it joins each title's chunks with a blank line. The remaining
`smart_chunks` branch iterates individual ranked chunks. The
`hierarchical` branch iterates nothing. -/
def ctxItems (vault : String → VaultDoc) (hits : List Hit)
    (strategy : ContextStrategy) (includeFullDocs : Bool) : List ContextPart :=
  let ids := rankIds hits
  if strategy = ContextStrategy.fullDocs ∨ includeFullDocs then
    (docGroups vault ids).map
      (fun g => ⟨g.1, String.intercalate "\n\n" g.2, PartKind.fullDocument⟩)
  else if strategy = ContextStrategy.hierarchical then
    []
  else
    ids.map (fun i => ⟨(vault i).title, (vault i).chunk, PartKind.chunk⟩)

/-- Result of `get_context_for_claude`: the accepted items, the final
token count, and the distinct titles included. -/
structure ContextBundle where
  context : List ContextPart
  tokensUsed : Nat
  documentsIncluded : List String
deriving Repr, DecidableEq

/-- Embeds `get_context_for_claude` (src/app.py lines 302-386): rank the hits,
pick the branch, run the greedy loop over that branch's items. The
`hierarchical` branch (when `include_full_docs` is not set) is a stub
producing an empty context. -/
def get_context_for_claude (vault : String → VaultDoc) (hits : List Hit)
    (strategy : ContextStrategy) (maxTokens : Nat) (includeFullDocs : Bool) :
    ContextBundle :=
  let items := ctxItems vault hits strategy includeFullDocs
  if strategy = ContextStrategy.hierarchical ∧ includeFullDocs = false then
    ⟨[], 0, []⟩
  else
    let r := assemble maxTokens items 0
    ⟨r.1, r.2, dedupKeepFirst (r.1.map ContextPart.title)⟩

/-! ### `src/utils/retry.py`: circuit breaker -/

/-- Circuit breaker states (src/utils/retry.py lines 18-22). -/
inductive CircuitState where
  | closed
  | opened
  | halfOpen
deriving Repr, DecidableEq

/-- Static circuit-breaker parameters (constructor arguments). -/
structure BreakerCfg where
  failureThreshold : Nat
  recoveryTimeout : ℚ

/-- Mutable circuit-breaker fields (src/utils/retry.py lines 38-40).
Wall-clock instants (`time.time()`) are modelled as rationals. -/
structure BreakerState where
  failureCount : Nat
  lastFailureTime : Option ℚ
  state : CircuitState
deriving Repr, DecidableEq

/-- The freshly constructed breaker: zero failures, no failure time,
Closed. -/
def BreakerState.init : BreakerState :=
  ⟨0, none, CircuitState.closed⟩

/-- Outcome of the wrapped operation when it is actually invoked. -/
inductive CallOutcome where
  | success
  | failMatching
  | failOther
deriving Repr, DecidableEq

/-- Observable result of one call through the breaker: `blocked` means the
`ServiceUnavailableError` fast-fail path (wrapped operation not invoked);
the other three report the wrapped operation's own outcome. -/
inductive CallResult where
  | blocked
  | succeeded
  | raisedMatching
  | raisedOther
deriving Repr, DecidableEq

/-- Embeds `_should_attempt_reset` (src/utils/retry.py lines 64-69):
`last_failure_time is not None and now - last_failure_time >= recovery_timeout`. -/
def shouldAttemptReset (cfg : BreakerCfg) (s : BreakerState) (now : ℚ) : Bool :=
  match s.lastFailureTime with
  | none => false
  | some t => decide (cfg.recoveryTimeout ≤ now - t)

/-- The admission gate at the top of the wrapper (src/utils/retry.py lines
45-52): while Open, either move to HalfOpen (timeout elapsed) and let the
call through, or fast-fail; any other state lets the call through
unchanged. Returns the state seen by the invocation and whether the
wrapped operation is invoked. -/
def breakerGate (cfg : BreakerCfg) (s : BreakerState) (now : ℚ) :
    BreakerState × Bool :=
  if s.state = CircuitState.opened then
    if shouldAttemptReset cfg s now then
      ({ s with state := CircuitState.halfOpen }, true)
    else
      (s, false)
  else
    (s, true)

/-- Embeds `_on_success` (src/utils/retry.py lines 71-74): reset the counter and
close the circuit. -/
def onSuccess (s : BreakerState) : BreakerState :=
  { s with failureCount := 0, state := CircuitState.closed }

/-- Embeds `_on_failure` (src/utils/retry.py lines 76-87): increment the counter,
record the failure time, and open the circuit when the counter reaches
the threshold. -/
def onFailure (cfg : BreakerCfg) (s : BreakerState) (now : ℚ) : BreakerState :=
  let c := s.failureCount + 1
  { failureCount := c
    lastFailureTime := some now
    state := if cfg.failureThreshold ≤ c then CircuitState.opened else s.state }

/-- One call through the breaker-wrapped function (src/utils/retry.py
lines 42-62): gate, then invoke; a success runs `_on_success`, a failure
of the expected kind runs `_on_failure` and re-raises, any other failure
propagates without bookkeeping. -/
def breakerCall (cfg : BreakerCfg) (s : BreakerState) (now : ℚ)
    (outcome : CallOutcome) : BreakerState × CallResult :=
  let g := breakerGate cfg s now
  if g.2 then
    match outcome with
    | CallOutcome.success => (onSuccess g.1, CallResult.succeeded)
    | CallOutcome.failMatching => (onFailure cfg g.1 now, CallResult.raisedMatching)
    | CallOutcome.failOther => (g.1, CallResult.raisedOther)
  else
    (g.1, CallResult.blocked)

/-! ### `src/utils/retry.py`: retry with backoff -/

/-- Static parameters of `retry_with_backoff` (src/utils/retry.py lines
90-97). Float delays are modelled as rationals. -/
structure RetryCfg where
  maxRetries : Nat
  baseDelay : ℚ
  maxDelay : ℚ
  exponentialBase : ℚ
  jitter : Bool

/-- Outcome of one invocation of the wrapped callable: a value, a failure
matching the retried exception tuple, or a non-matching failure (which
propagates immediately, no retry bookkeeping). -/
inductive AttemptOutcome (E A : Type) where
  | ok (v : A)
  | errMatching (e : E)
  | errOther (e : E)

/-- Result of the whole retry loop. -/
inductive RetryResult (E A : Type) where
  | ok (v : A)
  | errMatching (e : E)
  | errOther (e : E)
deriving Repr

/-- The un-jittered delay computed after failing attempt `i`:
`min(base_delay * exponential_base ** i, max_delay)` (src/utils/retry.py
line 127/157). -/
def rawDelay (cfg : RetryCfg) (i : Nat) : ℚ :=
  min (cfg.baseDelay * cfg.exponentialBase ^ i) cfg.maxDelay

/-- The delay actually slept after failing attempt `i`, with
`r i ∈ [0,1)` the draw of `random.random()`: when jitter is on the raw
delay is multiplied by `0.5 + random()/2` (src/utils/retry.py lines
129-131/159-161). -/
def sleptDelay (cfg : RetryCfg) (r : Nat → ℚ) (i : Nat) : ℚ :=
  if cfg.jitter then rawDelay cfg i * (1/2 + r i / 2) else rawDelay cfg i

/-- The retry loop `for attempt in range(max_retries + 1)` (src/utils/
retry.py lines 114-141 and 144-170), from attempt index `i` with `rem`
retries still available. Returns the result, the number of invocations of
the callable, and the list of attempt indices after which a sleep
happened (attempt `i`'s sleep uses exponent `i`). -/
def retryFrom (f : Nat → AttemptOutcome E A) :
    Nat → Nat → RetryResult E A × Nat × List Nat
  | i, 0 =>
    match f i with
    | AttemptOutcome.ok v => (RetryResult.ok v, i + 1, [])
    | AttemptOutcome.errMatching e => (RetryResult.errMatching e, i + 1, [])
    | AttemptOutcome.errOther e => (RetryResult.errOther e, i + 1, [])
  | i, rem + 1 =>
    match f i with
    | AttemptOutcome.ok v => (RetryResult.ok v, i + 1, [])
    | AttemptOutcome.errMatching _ =>
      let r := retryFrom f (i + 1) rem
      (r.1, r.2.1, i :: r.2.2)
    | AttemptOutcome.errOther e => (RetryResult.errOther e, i + 1, [])

/-- Embeds the `retry_with_backoff` wrapper applied once: attempt 0 first, at most
`max_retries` further attempts; the invocation count is the second
component and the slept attempt indices the third. -/
def runRetry (cfg : RetryCfg) (f : Nat → AttemptOutcome E A) :
    RetryResult E A × Nat × List Nat :=
  retryFrom f 0 cfg.maxRetries

/-! ### `src/agent_memory.py`: memory types, formatting, store, recall -/

/-- Memory types (src/agent_memory.py lines 33-42). -/
inductive MemoryType where
  | pattern
  | preference
  | execution
  | insight
  | feedback
  | optimization
  | research
  | synthesis
deriving Repr, DecidableEq

/-- The `.value` string of a memory type. -/
def MemoryType.value : MemoryType → String
  | MemoryType.pattern => "pattern"
  | MemoryType.preference => "preference"
  | MemoryType.execution => "execution"
  | MemoryType.insight => "insight"
  | MemoryType.feedback => "feedback"
  | MemoryType.optimization => "optimization"
  | MemoryType.research => "research"
  | MemoryType.synthesis => "synthesis"

/-- The `content` argument of `store_memory`: either a mapping (Python
dict, values abstracted to their string rendering) or a plain string. -/
inductive MemContent where
  | mapping (entries : List (String × String))
  | plain (s : String)
deriving Repr, DecidableEq

/-- Embeds `content.get(key, default)` for a mapping; on a non-mapping the
attribute access raises `AttributeError`. -/
def MemContent.get (c : MemContent) (key dflt : String) : Except Unit String :=
  match c with
  | MemContent.mapping entries =>
    match entries.find? (fun p => p.1 = key) with
    | some p => Except.ok p.2
    | none => Except.ok dflt
  | MemContent.plain _ => Except.error ()

/-- The type-specific Observations bullet lines of
`_format_memory_content` (src/agent_memory.py lines 182-206): each of the
five listed types reads its fields via `content.get`, which raises
`AttributeError` when the content is not a mapping; the other three types
produce no bullets. -/
def observationLines (memoryType : MemoryType) (content : MemContent) :
    Except Unit String :=
  match memoryType with
  | MemoryType.pattern => do
    let a ← content.get "pattern" "Unknown"
    let b ← content.get "count" "1"
    let c ← content.get "confidence" "0.5"
    pure ("- [pattern] Detected pattern: " ++ a ++ "\n" ++
      "- [frequency] Occurrence count: " ++ b ++ "\n" ++
      "- [confidence] Confidence level: " ++ c ++ "\n")
  | MemoryType.preference => do
    let a ← content.get "preference" "Unknown"
    let b ← content.get "context" "General"
    let c ← content.get "strength" "moderate"
    pure ("- [preference] User prefers: " ++ a ++ "\n" ++
      "- [context] In context: " ++ b ++ "\n" ++
      "- [strength] Preference strength: " ++ c ++ "\n")
  | MemoryType.execution => do
    let a ← content.get "task" "Unknown"
    let b ← content.get "status" "unknown"
    let c ← content.get "duration" "0"
    let d ← content.get "efficiency" "unknown"
    pure ("- [execution] Task: " ++ a ++ "\n" ++
      "- [status] Result: " ++ b ++ "\n" ++
      "- [duration] Execution time: " ++ c ++ "s\n" ++
      "- [performance] Efficiency: " ++ d ++ "\n")
  | MemoryType.insight => do
    let a ← content.get "finding" "Unknown"
    let b ← content.get "impact" "unknown"
    let c ← content.get "action" "none"
    pure ("- [insight] Key finding: " ++ a ++ "\n" ++
      "- [impact] Potential impact: " ++ b ++ "\n" ++
      "- [action] Recommended action: " ++ c ++ "\n")
  | MemoryType.feedback => do
    let a ← content.get "response" "Unknown"
    let b ← content.get "sentiment" "neutral"
    let c ← content.get "learning" "none"
    pure ("- [feedback] User response: " ++ a ++ "\n" ++
      "- [sentiment] Sentiment: " ++ b ++ "\n" ++
      "- [learning] Learning point: " ++ c ++ "\n")
  | _ => pure ""

/-- Plain rendering of the Details section body (JSON dump for a mapping,
`str(content)` otherwise); its exact text is irrelevant to the claims. -/
def detailsBody : MemContent → String
  | MemContent.mapping entries =>
    String.intercalate ", " (entries.map (fun p => p.1 ++ ": " ++ p.2))
  | MemContent.plain s => s

/-- Embeds `_format_memory_content` (src/agent_memory.py lines 165-224) with the
`created` timestamp passed explicitly: header, Observations (may raise on
non-mapping content for the five field-reading types), Details, optional
Relations. -/
def format_memory_content (agentName : String) (memoryType : MemoryType)
    (content : MemContent) (relations : List (String × List String))
    (created : String) : Except Unit String := do
  let header := "# " ++ memoryType.value ++ " Memory\n\n" ++
    "**Agent**: " ++ agentName ++ "\n" ++
    "**Created**: " ++ created ++ "\n" ++
    "**Type**: " ++ memoryType.value ++ "\n\n" ++
    "## Observations\n\n"
  let obs ← observationLines memoryType content
  let rel :=
    if relations = [] then ""
    else "## Relations\n\n" ++ String.intercalate ""
      (relations.map (fun p =>
        String.intercalate "" (p.2.map (fun t => "- " ++ p.1 ++ " [[" ++ t ++ "]]\n"))))
  pure (header ++ obs ++ "\n## Details\n\n" ++ detailsBody content ++ "\n\n" ++ rel)

/-- One entry of a local cache bucket (src/agent_memory.py lines 152-156):
the stored timestamp, the original content object, and the note path. -/
structure CacheEntry where
  timestamp : String
  content : MemContent
  path : String
deriving Repr, DecidableEq

/-- The local cache `self.cache`: Python dict from `"<agent>:<type>"` keys
to entry lists, as an insertion-ordered association list. -/
abbrev MemCache := List (String × List CacheEntry)

/-- Embeds `self.cache[key]` with a missing key reading as an absent bucket. -/
def cacheBucket (cache : MemCache) (key : String) : List CacheEntry :=
  match List.find? (fun p => p.1 = key) cache with
  | some p => p.2
  | none => []

/-- Replace (or create) the bucket of `key`, preserving insertion order. -/
def cacheSet (cache : MemCache) (key : String) (bucket : List CacheEntry) :
    MemCache :=
  if (List.find? (fun p => p.1 = key) cache).isSome then
    List.map (fun p => if p.1 = key then (key, bucket) else p) cache
  else
    cache ++ [(key, bucket)]

/-- Result of `store_memory`: the returned path string, the new cache, and
whether `memory_client.write_note` was invoked. -/
structure StoreResult where
  path : String
  cache : MemCache
  wroteExternal : Bool

/-- Embeds `store_memory` (src/agent_memory.py lines 97-163) with the timestamp
passed explicitly: build title and folder, render the markdown (an
exception here is caught by the surrounding `try`, which logs and returns
the empty string, leaving the cache untouched), optionally write the note
through the client, then append `{timestamp, content, path}` to the
`"<agent>:<type>"` cache bucket and return `folder/title`. -/
def store_memory (agentName : String) (memoryType : MemoryType)
    (content : MemContent) (relations : List (String × List String))
    (timestamp : String) (hasClient : Bool) (cache : MemCache) : StoreResult :=
  let title := agentName ++ " - " ++ memoryType.value ++ " - " ++ timestamp
  let folder := "agent-os/memory/" ++ memoryType.value ++ "s"
  match format_memory_content agentName memoryType content relations timestamp with
  | Except.error _ => ⟨"", cache, false⟩
  | Except.ok _ =>
    let key := agentName ++ ":" ++ memoryType.value
    let entry : CacheEntry := ⟨timestamp, content, folder ++ "/" ++ title⟩
    ⟨folder ++ "/" ++ title, cacheSet cache key (cacheBucket cache key ++ [entry]),
      hasClient⟩

/-- Result of `recall_memories`: the returned entries (cache path) and
whether `memory_client.search_notes` was invoked. On the external path the
returned records are normalized search hits, abstracted here to an opaque
count-free marker: the claims only concern the cache path, so the
external branch returns the empty list exactly as the clientless code
does, with the flag recording whether a search was issued. -/
structure RecallResult where
  entries : List CacheEntry
  searchedExternal : Bool
deriving Repr, DecidableEq

/-- Embeds `recall_memories` (src/agent_memory.py lines 226-281): compute the
bucket key `"<agent>:<type-or-all>"`; a non-empty bucket is returned as
`bucket[-limit:]` with no external search; an empty or absent bucket falls
through to the external store query (issued only when a client is
configured). -/
def recall_memories (agentName : String) (memoryType : Option MemoryType)
    (limit : Nat) (hasClient : Bool) (cache : MemCache) : RecallResult :=
  let key := agentName ++ ":" ++
    (match memoryType with
     | some t => t.value
     | none => "all")
  let bucket := cacheBucket cache key
  if bucket ≠ [] then
    ⟨pySliceLast limit bucket, false⟩
  else
    ⟨[], hasClient⟩

/-! ### `src/scheduler.py`: execution history bookkeeping -/

/-- One execution-history record: trigger tag (`"scheduled"` or
`"manual"`) plus the recorded agent name and timestamp; the request and
response snapshots are irrelevant to the history-size claims and are
abstracted to their agent name. -/
structure ExecRecord where
  timestamp : String
  agentName : String
  trigger : String
deriving Repr, DecidableEq

/-- Embeds `self.max_history` (src/scheduler.py line 37). -/
def maxHistory : Nat := 1000

/-- Embeds `record_execution` (src/scheduler.py lines 291-310): append a record
tagged `"scheduled"`, then trim the history to its most recent
`max_history` entries when it exceeds the cap. -/
def record_execution (history : List ExecRecord) (timestamp agentName : String) :
    List ExecRecord :=
  let h := history ++ [⟨timestamp, agentName, "scheduled"⟩]
  if maxHistory < h.length then lastN maxHistory h else h

/-- The history append inside `trigger_agent` (src/scheduler.py lines
312-341): a record tagged `"manual"` is appended directly to
`self.execution_history`, with no trimming step. -/
def trigger_agent_append (history : List ExecRecord)
    (timestamp agentName : String) : List ExecRecord :=
  history ++ [⟨timestamp, agentName, "manual"⟩]

/-! ### `src/agents_enhanced.py`: ParallelExecutor -/

/-- A Python value as far as the embedded functions inspect one: number
(floats as rationals), string, list, or string-keyed dict
(insertion-ordered association list). -/
inductive PVal where
  | num (q : ℚ)
  | str (s : String)
  | list (l : List PVal)
  | dict (l : List (String × PVal))

/-- A `ParallelTask` (src/agents_enhanced.py lines 42-50) together with
the outcome its callable would produce: the callable, arguments and event
loop are abstracted to that outcome (a value, or the message of the
exception/timeout it raises). -/
structure PTask where
  name : String
  priority : Int
  outcome : Except String PVal

/-- Stable ascending insertion by priority: a task moves ahead only of
strictly greater priorities, so equal priorities keep their relative
order, like Python's stable `list.sort(key=priority)`. -/
def insertByPriority (t : PTask) : List PTask → List PTask
  | [] => [t]
  | u :: us => if t.priority ≤ u.priority then t :: u :: us else u :: insertByPriority t us

/-- Embeds `tasks.sort(key=lambda x: x.priority)` (src/agents_enhanced.py line 63). -/
def sortByPriority (ts : List PTask) : List PTask :=
  ts.foldr insertByPriority []

/-- Python dict insert: overwrite the value of an existing key in place,
else append the new pair. -/
def dictInsert (m : List (String × PVal)) (k : String) (v : PVal) :
    List (String × PVal) :=
  if (List.find? (fun p => p.1 = k) m).isSome then
    List.map (fun p => if p.1 = k then (k, v) else p) m
  else
    m ++ [(k, v)]

/-- Build a Python dict from key/value pairs in order (later pairs
overwrite earlier values of the same key). -/
def buildDict (l : List (String × PVal)) : List (String × PVal) :=
  l.foldl (fun m p => dictInsert m p.1 p.2) []

/-- How `execute_parallel` reports one task: its real result, or
`{"error": str(exception)}` when the coroutine raised (including its own
timeout), as `asyncio.gather(..., return_exceptions=True)` hands back
(src/agents_enhanced.py lines 88-94). -/
def wrapOutcome : Except String PVal → PVal
  | Except.ok v => v
  | Except.error e => PVal.dict [("error", PVal.str e)]

/-- Embeds `ParallelExecutor.execute_parallel` (src/agents_enhanced.py lines
60-94): sort the tasks by priority, run them all (each failure isolated
into an exception value), and build the name→result dict comprehension. -/
def execute_parallel (tasks : List PTask) : List (String × PVal) :=
  buildDict ((sortByPriority tasks).map (fun t => (t.name, wrapOutcome t.outcome)))

/-! ### `src/agents_enhanced.py`: tag clustering -/

/-- Size of the intersection of two tag sets, modelled as duplicate-free
lists: `len(cooccurrence[related_tag] & related)`. -/
def interCount (a b : List String) : Nat :=
  (a.filter (fun x => b.contains x)).length

/-- Embeds `cooccurrence[related_tag]` where the map is a `defaultdict(set)`:
a missing key reads as the empty set. -/
def coocOf (cooc : List (String × List String)) (tag : String) : List String :=
  match List.find? (fun p => p.1 = tag) cooc with
  | some p => p.2
  | none => []

/-- The inner loop of `_find_tag_clusters` for seed `tag` with
co-occurrence set `related` (src/agents_enhanced.py lines 330-334): every
`related_tag ≠ tag` whose own co-occurrence set shares more than 2
elements with `related` joins the cluster — with **no** check that it was
already placed in an earlier cluster. -/
def clusterMembers (cooc : List (String × List String)) (tag : String)
    (related : List String) : List String :=
  related.filter (fun u => u ≠ tag ∧ 2 < interCount (coocOf cooc u) related)

/-- The outer loop of `_find_tag_clusters` (src/agents_enhanced.py lines
325-340): iterate the co-occurrence map in insertion order; a tag not yet
in `processed` seeds a cluster of itself plus its members; clusters of
size > 1 are kept; the seed and its members are marked processed. -/
def findClustersGo (cooc : List (String × List String)) :
    List (String × List String) → List String → List (List String)
  | [], _ => []
  | (tag, related) :: rest, processed =>
    if processed.contains tag then
      findClustersGo cooc rest processed
    else
      let members := clusterMembers cooc tag related
      let processed2 := processed ++ members ++ [tag]
      if members = [] then
        findClustersGo cooc rest processed2
      else
        (tag :: members) :: findClustersGo cooc rest processed2

/-- Embeds `_find_tag_clusters` (src/agents_enhanced.py lines 325-342): run the
greedy pass over the whole map and keep the first 5 clusters
(`clusters[:5]`). -/
def find_tag_clusters (cooc : List (String × List String)) : List (List String) :=
  (findClustersGo cooc cooc []).take 5

/-! ### `src/agents_enhanced.py`: insight derivation -/

/-- Python exceptions `_generate_insights` can raise while poking at the
result map with the wrong shape. -/
inductive PyErr where
  | attributeError
  | typeError
  | keyError
  | indexError
deriving Repr, DecidableEq

/-- Embeds `isinstance(v, dict)`. -/
def PVal.isDict : PVal → Bool
  | PVal.dict _ => true
  | _ => false

/-- Embeds `v.get(key, dflt)`: dict lookup with default; any non-dict value has
no `get` attribute. -/
def PVal.pyGet (v : PVal) (key : String) (dflt : PVal) : Except PyErr PVal :=
  match v with
  | PVal.dict l =>
    match List.find? (fun p => p.1 = key) l with
    | some p => Except.ok p.2
    | none => Except.ok dflt
  | _ => Except.error PyErr.attributeError

/-- Embeds `len(v)`: characters of a string, elements of a list, keys of a dict;
a number has no `len`. -/
def PVal.pyLen : PVal → Except PyErr Nat
  | PVal.num _ => Except.error PyErr.typeError
  | PVal.str s => Except.ok s.length
  | PVal.list l => Except.ok l.length
  | PVal.dict l => Except.ok l.length

/-- Python truthiness. -/
def PVal.truthy : PVal → Bool
  | PVal.num q => decide (q ≠ 0)
  | PVal.str s => decide (s ≠ "")
  | PVal.list l => !l.isEmpty
  | PVal.dict l => !l.isEmpty

/-- Embeds `v[0]`: head of a non-empty list; a dict indexed by the integer 0
raises `KeyError` (its keys are strings); a string yields its first
character; a number is not subscriptable. -/
def PVal.pyIndexZero : PVal → Except PyErr PVal
  | PVal.num _ => Except.error PyErr.typeError
  | PVal.str s =>
    if s = "" then Except.error PyErr.indexError
    else Except.ok (PVal.str (String.singleton (s.get 0)))
  | PVal.list l =>
    match l with
    | [] => Except.error PyErr.indexError
    | v :: _ => Except.ok v
  | PVal.dict _ => Except.error PyErr.keyError

/-- Embeds `v > n` for an integer literal `n`: only numbers compare. -/
def PVal.pyGtNum (v : PVal) (n : ℚ) : Except PyErr Bool :=
  match v with
  | PVal.num q => Except.ok (decide (n < q))
  | _ => Except.error PyErr.typeError

/-- Embeds `v < n`: only numbers compare. -/
def PVal.pyLtNum (v : PVal) (n : ℚ) : Except PyErr Bool :=
  match v with
  | PVal.num q => Except.ok (decide (q < n))
  | _ => Except.error PyErr.typeError

/-- One insight sentence, identified by which branch appended it and the
values it interpolates (the literal f-string text adds nothing the
claims inspect). -/
inductive Insight where
  | noteCount (totalNotes : PVal)
  | orphanCount (n : Nat)
  | emergingTheme (name rate : PVal)
  | lowConnectivity

/-- Embeds `_generate_insights` (src/agents_enhanced.py lines 477-504), inspecting
the parallel-analysis result map:
* statistics: guarded by `'statistics' in results and not
  isinstance(results['statistics'], dict)` — a dict value (the shape every
  task result has) fails the guard, and a non-dict value enters the body
  only to raise `AttributeError` at `stats.get('total_notes', 0)`;
* orphaned_notes: appended when `len(orphaned) > 5`;
* emerging_themes: appended for a truthy value whose `[0]` is truthy,
  reading `theme` and `growth_rate` via `get`;
* quality_metrics: appended when `metrics.get('connectivity', 0) < 0.5`. -/
def generate_insights (results : List (String × PVal)) :
    Except PyErr (List Insight) := do
  let lookup := fun k => List.find? (fun p => p.1 = k) results
  let mut insights : List Insight := []
  match lookup "statistics" with
  | none => pure ()
  | some p =>
    if p.2.isDict then
      pure ()
    else do
      let stats := p.2
      let tn ← stats.pyGet "total_notes" (PVal.num 0)
      let big ← tn.pyGtNum 100
      if big then
        let tnDirect ← stats.pyGet "total_notes" (PVal.num 0)
        insights := insights ++ [Insight.noteCount tnDirect]
  match lookup "orphaned_notes" with
  | none => pure ()
  | some p => do
    let n ← p.2.pyLen
    if 5 < n then
      insights := insights ++ [Insight.orphanCount n]
  match lookup "emerging_themes" with
  | none => pure ()
  | some p =>
    if p.2.truthy then do
      let top ← p.2.pyIndexZero
      if top.truthy then
        let nm ← top.pyGet "theme" (PVal.str "Unknown")
        let gr ← top.pyGet "growth_rate" (PVal.num 0)
        insights := insights ++ [Insight.emergingTheme nm gr]
    else
      pure ()
  match lookup "quality_metrics" with
  | none => pure ()
  | some p => do
    let conn ← p.2.pyGet "connectivity" (PVal.num 0)
    let low ← conn.pyLtNum (1/2)
    if low then
      insights := insights ++ [Insight.lowConnectivity]
  pure insights

/-! ## Helper lemmas -/

theorem mem_dedup_fold (l : List String) : ∀ (acc : List String) (x : String),
    (x ∈ l.foldl (fun acc x => if acc.contains x then acc else acc ++ [x]) acc) ↔
      (x ∈ acc ∨ x ∈ l) := by
  induction l with
  | nil => simp
  | cons y ys ih =>
    intro acc x
    simp only [List.foldl_cons]
    by_cases hy : acc.contains y
    · rw [if_pos hy, ih]
      replace hy : y ∈ acc := by
        simpa [List.contains, List.elem_eq_mem] using hy
      constructor
      · rintro (h | h)
        · exact Or.inl h
        · exact Or.inr (List.mem_cons_of_mem _ h)
      · rintro (h | h)
        · exact Or.inl h
        · rcases List.mem_cons.mp h with h | h
          · exact Or.inl (h ▸ hy)
          · exact Or.inr h
    · rw [if_neg hy, ih]
      simp [List.mem_append, List.mem_cons, or_assoc]

theorem mem_dedupKeepFirst (l : List String) (x : String) :
    x ∈ dedupKeepFirst l ↔ x ∈ l := by
  rw [dedupKeepFirst, mem_dedup_fold]
  simp

theorem mem_insertAsc (x q : String) (l : List String) :
    q ∈ insertAsc x l ↔ q = x ∨ q ∈ l := by
  induction l with
  | nil => simp [insertAsc]
  | cons y ys ih =>
    rw [insertAsc]
    by_cases h : strLeb x y
    · simp [h]
    · simp only [h, Bool.false_eq_true, if_false, List.mem_cons, ih]
      tauto

theorem mem_sortAsc (l : List String) (q : String) : q ∈ sortAsc l ↔ q ∈ l := by
  induction l with
  | nil => simp [sortAsc]
  | cons y ys ih =>
    rw [sortAsc, List.foldr_cons]
    rw [show List.foldr insertAsc [] ys = sortAsc ys from rfl] at *
    rw [mem_insertAsc, ih]
    simp

theorem mem_insertDesc (x q : String × Int) (l : List (String × Int)) :
    q ∈ insertDesc x l ↔ q = x ∨ q ∈ l := by
  induction l with
  | nil => simp [insertDesc]
  | cons y ys ih =>
    rw [insertDesc]
    by_cases h : y.2 ≤ x.2
    · simp [h]
    · simp only [if_neg h, List.mem_cons, ih]
      tauto

theorem mem_sortDesc (l : List (String × Int)) (q : String × Int) :
    q ∈ sortDesc l ↔ q ∈ l := by
  induction l with
  | nil => simp [sortDesc]
  | cons y ys ih =>
    rw [sortDesc, List.foldr_cons]
    rw [show List.foldr insertDesc [] ys = sortDesc ys from rfl] at *
    rw [mem_insertDesc, ih]
    simp

theorem sorted_insertDesc (x : String × Int) (l : List (String × Int))
    (h : List.Pairwise (fun a b => b.2 ≤ a.2) l) :
    List.Pairwise (fun a b => b.2 ≤ a.2) (insertDesc x l) := by
  induction l with
  | nil => simp [insertDesc]
  | cons y ys ih =>
    rw [insertDesc]
    rcases List.pairwise_cons.mp h with ⟨hy, hys⟩
    by_cases hle : y.2 ≤ x.2
    · rw [if_pos hle]
      refine List.pairwise_cons.mpr ⟨?_, h⟩
      intro b hb
      rcases List.mem_cons.mp hb with rfl | hb
      · exact hle
      · exact le_trans (hy b hb) hle
    · rw [if_neg hle]
      refine List.pairwise_cons.mpr ⟨?_, ih hys⟩
      intro b hb
      rcases (mem_insertDesc x b ys).mp hb with rfl | hb
      · exact le_of_not_le hle
      · exact hy b hb

theorem sorted_sortDesc (l : List (String × Int)) :
    List.Pairwise (fun a b => b.2 ≤ a.2) (sortDesc l) := by
  induction l with
  | nil => simp [sortDesc]
  | cons y ys ih =>
    rw [sortDesc, List.foldr_cons]
    exact sorted_insertDesc y _ ih

theorem rankIds_snd_eq (hits : List Hit) (p : String × Int)
    (hp : p ∈ sortDesc ((groupIds hits).map (fun d => (d, aggScore hits d)))) :
    p.2 = aggScore hits p.1 := by
  rcases List.mem_map.mp ((mem_sortDesc _ p).mp hp) with ⟨d, _, rfl⟩
  rfl

/-! ## C2: hit ranking -/

/-- C2 (amended): per-hit score is `10 − rank` and aggregate scores sum per
document id (`aggScore`); the ranked list contains exactly the hit
document ids and is ordered descending by aggregate score; but the ranked
order is a function of the id-sorted aggregate table alone — pandas
`groupby("id")` sorts the group keys and discards row order — so tied
documents do **not** keep their first-seen relative order (see the
counterexample); for hits `[{a,0},{b,1},{a,0}]` the aggregates are a = 20
and b = 9 and the ranked order is `[a, b]`. -/
theorem ranking_spec :
    (∀ hits d, hits ≠ [] → (d ∈ rankIds hits ↔ d ∈ hits.map Hit.id)) ∧
    (∀ hits : List Hit, hits ≠ [] →
      List.Pairwise (fun a b => aggScore hits b ≤ aggScore hits a) (rankIds hits)) ∧
    (∀ h1 h2 : List Hit, h1 ≠ [] → h2 ≠ [] → groupIds h1 = groupIds h2 →
      (∀ d, aggScore h1 d = aggScore h2 d) → rankIds h1 = rankIds h2) ∧
    (aggScore [⟨"a", 0⟩, ⟨"b", 1⟩, ⟨"a", 0⟩] "a" = 20 ∧
     aggScore [⟨"a", 0⟩, ⟨"b", 1⟩, ⟨"a", 0⟩] "b" = 9 ∧
     rankIds [⟨"a", 0⟩, ⟨"b", 1⟩, ⟨"a", 0⟩] = ["a", "b"]) := by
  refine ⟨?_, ?_, ?_, by decide⟩
  · intro hits d _
    unfold rankIds
    rw [List.mem_map]
    constructor
    · rintro ⟨p, hp, rfl⟩
      rcases List.mem_map.mp ((mem_sortDesc _ p).mp hp) with ⟨e, he, rfl⟩
      rw [groupIds, mem_sortAsc, mem_dedupKeepFirst] at he
      exact he
    · intro hd
      refine ⟨(d, aggScore hits d), (mem_sortDesc _ _).mpr ?_, rfl⟩
      refine List.mem_map.mpr ⟨d, ?_, rfl⟩
      rw [groupIds, mem_sortAsc, mem_dedupKeepFirst]
      exact hd
  · intro hits _
    unfold rankIds
    rw [List.pairwise_map]
    refine (sorted_sortDesc _).imp_of_mem ?_
    intro p q hp hq hle
    rw [rankIds_snd_eq hits p hp, rankIds_snd_eq hits q hq] at hle
    exact hle
  · intro h1 h2 _ _ hg ha
    unfold rankIds
    rw [hg]
    congr 1
    congr 1
    exact List.map_congr_left (fun d _ => by rw [ha d])

/-- C2 witness: the ranking theorem applied at concrete inputs, with every
hypothesis discharged there. -/
theorem ranking_spec_witness :
    ("a" ∈ rankIds [⟨"a", 0⟩, ⟨"b", 1⟩] ↔
      "a" ∈ ([⟨"a", 0⟩, ⟨"b", 1⟩] : List Hit).map Hit.id) ∧
    rankIds [⟨"b", 0⟩, ⟨"a", 0⟩] = rankIds [⟨"a", 0⟩, ⟨"b", 0⟩] := by
  constructor
  · exact ranking_spec.1 [⟨"a", 0⟩, ⟨"b", 1⟩] "a" (by simp)
  · refine ranking_spec.2.2.1 [⟨"b", 0⟩, ⟨"a", 0⟩] [⟨"a", 0⟩, ⟨"b", 0⟩]
      (by simp) (by simp) (by decide) ?_
    intro d
    by_cases hb : ("b" : String) = d
    · have ha : ¬("a" : String) = d := fun ha => by
        exact absurd (ha.trans hb.symm) (by decide)
      simp [aggScore, List.filter_cons, hb, ha]
    · by_cases ha : ("a" : String) = d
      · simp [aggScore, List.filter_cons, hb, ha]
      · simp [aggScore, List.filter_cons, hb, ha]

/-- C2 counterexample: the ranked order cannot keep first-seen relative
order for tied documents — the two inputs below have the same aggregate
table (all scores tied at 10), so the ranking step maps them to the same
output, while their first-seen orders `[b, a, c]` and `[a, b, c]` differ;
the claimed behavior would require two different outputs. -/
theorem ranking_ties_counterexample :
    rankIds [⟨"b", 0⟩, ⟨"a", 0⟩, ⟨"c", 0⟩] = rankIds [⟨"a", 0⟩, ⟨"b", 0⟩, ⟨"c", 0⟩] ∧
    dedupKeepFirst (([⟨"b", 0⟩, ⟨"a", 0⟩, ⟨"c", 0⟩] : List Hit).map Hit.id) =
      ["b", "a", "c"] ∧
    dedupKeepFirst (([⟨"a", 0⟩, ⟨"b", 0⟩, ⟨"c", 0⟩] : List Hit).map Hit.id) =
      ["a", "b", "c"] ∧
    aggScore [⟨"b", 0⟩, ⟨"a", 0⟩, ⟨"c", 0⟩] "a" =
      aggScore [⟨"b", 0⟩, ⟨"a", 0⟩, ⟨"c", 0⟩] "b" ∧
    ¬(rankIds [⟨"b", 0⟩, ⟨"a", 0⟩, ⟨"c", 0⟩] = ["b", "a", "c"] ∧
      rankIds [⟨"a", 0⟩, ⟨"b", 0⟩, ⟨"c", 0⟩] = ["a", "b", "c"]) := by
  decide

/-! ## C1: greedy context assembly -/

theorem sumTokens_cons (p : ContextPart) (l : List ContextPart) :
    sumTokens (p :: l) = partTokens p + sumTokens l := by
  simp [sumTokens]

theorem sumTokens_take_succ (l : List ContextPart) :
    ∀ j, j < l.length →
      sumTokens (l.take (j + 1)) =
        sumTokens (l.take j) + partTokens (l.getD j ⟨"", "", PartKind.chunk⟩) := by
  induction l with
  | nil => intro j h; simp at h
  | cons p rest ih =>
    intro j hj
    cases j with
    | zero => simp [sumTokens]
    | succ j =>
      simp only [List.take_succ_cons, sumTokens_cons, List.getD_cons_succ]
      rw [ih j (by simpa using hj)]
      omega

theorem assemble_spec (budget : Nat) : ∀ (items : List ContextPart) (used : Nat),
    ∃ k, k ≤ items.length ∧
      (assemble budget items used).1 = items.take k ∧
      (assemble budget items used).2 = used + sumTokens (items.take k) ∧
      (∀ j, j < k →
        used + sumTokens (items.take j) +
          partTokens (items.getD j ⟨"", "", PartKind.chunk⟩) ≤ budget) ∧
      (k < items.length →
        budget < used + sumTokens (items.take k) +
          partTokens (items.getD k ⟨"", "", PartKind.chunk⟩)) := by
  intro items
  induction items with
  | nil =>
    intro used
    exact ⟨0, by simp [assemble, sumTokens]⟩
  | cons p rest ih =>
    intro used
    by_cases h : used + partTokens p ≤ budget
    · rcases ih (used + partTokens p) with ⟨k, hk, hfst, hsnd, hstep, hstop⟩
      refine ⟨k + 1, by simpa using hk, ?_, ?_, ?_, ?_⟩
      · simp only [assemble, if_pos h, List.take_succ_cons]
        rw [hfst]
      · simp only [assemble, if_pos h, List.take_succ_cons, sumTokens_cons]
        rw [hsnd]; omega
      · intro j hj
        cases j with
        | zero => simpa [sumTokens] using h
        | succ j =>
          have := hstep j (by omega)
          simp only [List.take_succ_cons, sumTokens_cons, List.getD_cons_succ]
          omega
      · intro hlt
        have := hstop (by simpa using hlt)
        simp only [List.take_succ_cons, sumTokens_cons, List.getD_cons_succ]
        omega
    · refine ⟨0, by simp, ?_, ?_, by simp, ?_⟩
      · simp [assemble, if_neg h]
      · simp [assemble, if_neg h, sumTokens]
      · intro _
        simp only [List.take_zero, List.getD_cons_zero]
        simp only [sumTokens]
        omega

/-- C1: under the `full_docs` and `smart_chunks` strategies, context
assembly accepts the branch's ranked items greedily: the accepted items
are exactly a prefix of the item list, each accepted item satisfied
`tokens_used + item_tokens ≤ budget` at its turn, the loop stops at the
first item that would overflow the budget (when the prefix is proper, the
very next item overflows), and the returned `tokens_used` (the sum of the
accepted items' estimated tokens) never exceeds the requested budget. -/
theorem context_assembly_greedy (vault : String → VaultDoc) (hits : List Hit)
    (strategy : ContextStrategy) (budget : Nat) (flag : Bool)
    (hne : hits ≠ [])
    (hs : strategy = ContextStrategy.fullDocs ∨ strategy = ContextStrategy.smartChunks) :
    (get_context_for_claude vault hits strategy budget flag).tokensUsed ≤ budget ∧
    ∃ k, k ≤ (ctxItems vault hits strategy flag).length ∧
      (get_context_for_claude vault hits strategy budget flag).context =
        (ctxItems vault hits strategy flag).take k ∧
      (get_context_for_claude vault hits strategy budget flag).tokensUsed =
        sumTokens ((ctxItems vault hits strategy flag).take k) ∧
      (∀ j, j < k →
        sumTokens ((ctxItems vault hits strategy flag).take j) +
          partTokens ((ctxItems vault hits strategy flag).getD j ⟨"", "", PartKind.chunk⟩)
          ≤ budget) ∧
      (k < (ctxItems vault hits strategy flag).length →
        budget < sumTokens ((ctxItems vault hits strategy flag).take k) +
          partTokens ((ctxItems vault hits strategy flag).getD k ⟨"", "", PartKind.chunk⟩)) := by
  have hcond : ¬(strategy = ContextStrategy.hierarchical ∧ flag = false) := by
    rcases hs with rfl | rfl <;> simp
  rcases assemble_spec budget (ctxItems vault hits strategy flag) 0 with
    ⟨k, hk, hfst, hsnd, hstep, hstop⟩
  have hres : get_context_for_claude vault hits strategy budget flag =
      ⟨(assemble budget (ctxItems vault hits strategy flag) 0).1,
       (assemble budget (ctxItems vault hits strategy flag) 0).2,
       dedupKeepFirst (((assemble budget (ctxItems vault hits strategy flag) 0).1).map
         ContextPart.title)⟩ := by
    rw [get_context_for_claude, if_neg hcond]
  rw [hres]
  simp only []
  constructor
  · rw [hsnd]
    cases k with
    | zero => simp [sumTokens]
    | succ j =>
      have hjlen : j < (ctxItems vault hits strategy flag).length := by omega
      have h1 := hstep j (Nat.lt_succ_self j)
      have h2 := sumTokens_take_succ (ctxItems vault hits strategy flag) j hjlen
      omega
  · exact ⟨k, hk, hfst, by rw [hsnd]; omega,
      fun j hj => by have := hstep j hj; omega,
      fun hlt => by have := hstop hlt; omega⟩

/-- C1 witness: the greedy-assembly theorem applied to a concrete vault,
hit list and budget, with both hypotheses discharged there. -/
theorem context_assembly_greedy_witness :
    (get_context_for_claude (fun _ => ⟨"T", "12345678"⟩) [⟨"a", 0⟩]
      ContextStrategy.smartChunks 10 false).tokensUsed ≤ 10 :=
  (context_assembly_greedy (fun _ => ⟨"T", "12345678"⟩) [⟨"a", 0⟩]
    ContextStrategy.smartChunks 10 false (by simp) (Or.inr rfl)).1

/-! ## C3: circuit breaker -/

/-- C3: (1) while Open with the recovery timeout not yet elapsed since the
last recorded failure, a call fails immediately with the
service-unavailable error, the wrapped operation is not invoked, and the
breaker state is unchanged; (2) a call arriving once the recovery timeout
has elapsed moves the state to HalfOpen and is allowed through; (3) any
successful call in Closed or HalfOpen resets the failure counter to zero
and the state to Closed; (4) an admitted matching failure increments the
cumulative counter, and the resulting state is Open exactly when the new
counter has reached the failure threshold. -/
theorem circuit_breaker_spec :
    (∀ (cfg : BreakerCfg) (s : BreakerState) (now t : ℚ) (o : CallOutcome),
      s.state = CircuitState.opened → s.lastFailureTime = some t →
      now - t < cfg.recoveryTimeout →
      breakerCall cfg s now o = (s, CallResult.blocked)) ∧
    (∀ (cfg : BreakerCfg) (s : BreakerState) (now t : ℚ),
      s.state = CircuitState.opened → s.lastFailureTime = some t →
      cfg.recoveryTimeout ≤ now - t →
      breakerGate cfg s now = ({ s with state := CircuitState.halfOpen }, true)) ∧
    (∀ (cfg : BreakerCfg) (s : BreakerState) (now : ℚ),
      s.state = CircuitState.closed ∨ s.state = CircuitState.halfOpen →
      breakerCall cfg s now CallOutcome.success =
        ({ s with failureCount := 0, state := CircuitState.closed },
         CallResult.succeeded)) ∧
    (∀ (cfg : BreakerCfg) (s : BreakerState) (now : ℚ),
      s.state = CircuitState.closed ∨ s.state = CircuitState.halfOpen →
      (breakerCall cfg s now CallOutcome.failMatching).1.failureCount =
        s.failureCount + 1 ∧
      (breakerCall cfg s now CallOutcome.failMatching).2 =
        CallResult.raisedMatching ∧
      ((breakerCall cfg s now CallOutcome.failMatching).1.state =
          CircuitState.opened ↔
        cfg.failureThreshold ≤ s.failureCount + 1)) := by
  refine ⟨?_, ?_, ?_, ?_⟩
  · intro cfg s now t o hopen hlast hlt
    have hres : shouldAttemptReset cfg s now = false := by
      rw [shouldAttemptReset, hlast]
      simpa using not_le.mpr hlt
    simp [breakerCall, breakerGate, hopen, hres]
  · intro cfg s now t hopen hlast hle
    have hres : shouldAttemptReset cfg s now = true := by
      rw [shouldAttemptReset, hlast]
      simpa using hle
    simp [breakerGate, hopen, hres]
  · intro cfg s now hs
    have hno : s.state ≠ CircuitState.opened := by
      rcases hs with h | h <;> simp [h]
    simp [breakerCall, breakerGate, hno, onSuccess]
  · intro cfg s now hs
    have hno : s.state ≠ CircuitState.opened := by
      rcases hs with h | h <;> simp [h]
    refine ⟨by simp [breakerCall, breakerGate, hno, onFailure],
      by simp [breakerCall, breakerGate, hno], ?_⟩
    simp only [breakerCall, breakerGate, if_neg hno, if_pos rfl, onFailure]
    by_cases hth : cfg.failureThreshold ≤ s.failureCount + 1
    · simp [hth]
    · simp only [if_neg hth]
      constructor
      · intro h
        exact absurd h (by rcases hs with h2 | h2 <;> simp [h2])
      · intro h
        exact absurd h hth

/-- C3 witness: the circuit-breaker theorem applied at threshold 3 and a
60-second recovery timeout, as in the specification's example, with every
hypothesis discharged at concrete states and times. -/
theorem circuit_breaker_spec_witness :
    breakerCall ⟨3, 60⟩ ⟨3, some 0, CircuitState.opened⟩ 30 CallOutcome.success =
      (⟨3, some 0, CircuitState.opened⟩, CallResult.blocked) ∧
    breakerGate ⟨3, 60⟩ ⟨3, some 0, CircuitState.opened⟩ 60 =
      (⟨3, some 0, CircuitState.halfOpen⟩, true) ∧
    breakerCall ⟨3, 60⟩ ⟨3, some 0, CircuitState.halfOpen⟩ 61 CallOutcome.success =
      (⟨0, some 0, CircuitState.closed⟩, CallResult.succeeded) ∧
    (breakerCall ⟨3, 60⟩ ⟨2, none, CircuitState.closed⟩ 5
        CallOutcome.failMatching).1.failureCount = 3 ∧
    ((breakerCall ⟨3, 60⟩ ⟨2, none, CircuitState.closed⟩ 5
        CallOutcome.failMatching).1.state = CircuitState.opened ↔ 3 ≤ 2 + 1) := by
  refine ⟨?_, ?_, ?_, ?_, ?_⟩
  · exact circuit_breaker_spec.1 ⟨3, 60⟩ ⟨3, some 0, CircuitState.opened⟩ 30 0
      CallOutcome.success rfl rfl (by norm_num)
  · exact circuit_breaker_spec.2.1 ⟨3, 60⟩ ⟨3, some 0, CircuitState.opened⟩ 60 0
      rfl rfl (by norm_num)
  · exact circuit_breaker_spec.2.2.1 ⟨3, 60⟩ ⟨3, some 0, CircuitState.halfOpen⟩ 61
      (Or.inr rfl)
  · exact (circuit_breaker_spec.2.2.2 ⟨3, 60⟩ ⟨2, none, CircuitState.closed⟩ 5
      (Or.inl rfl)).1
  · exact (circuit_breaker_spec.2.2.2 ⟨3, 60⟩ ⟨2, none, CircuitState.closed⟩ 5
      (Or.inl rfl)).2.2

/-! ## C4: retry with backoff -/

theorem retryFrom_count_lower {E A : Type} (f : Nat → AttemptOutcome E A) :
    ∀ (rem i : Nat), i + 1 ≤ (retryFrom f i rem).2.1 := by
  intro rem
  induction rem with
  | zero =>
    intro i
    rcases h : f i with v | e | e <;> simp [retryFrom, h]
  | succ rem ih =>
    intro i
    rcases h : f i with v | e | e <;> simp [retryFrom, h]
    have := ih (i + 1)
    omega

theorem retryFrom_count_upper {E A : Type} (f : Nat → AttemptOutcome E A) :
    ∀ (rem i : Nat), (retryFrom f i rem).2.1 ≤ i + rem + 1 := by
  intro rem
  induction rem with
  | zero =>
    intro i
    rcases h : f i with v | e | e <;> simp [retryFrom, h]
  | succ rem ih =>
    intro i
    rcases h : f i with v | e | e <;> simp [retryFrom, h]
    have := ih (i + 1)
    omega

theorem retryFrom_slept {E A : Type} (f : Nat → AttemptOutcome E A) :
    ∀ (rem i : Nat),
      (retryFrom f i rem).2.2 = List.range' i ((retryFrom f i rem).2.1 - (i + 1)) := by
  intro rem
  induction rem with
  | zero =>
    intro i
    rcases h : f i with v | e | e <;> simp [retryFrom, h]
  | succ rem ih =>
    intro i
    rcases h : f i with v | e | e <;> simp [retryFrom, h]
    have hlow := retryFrom_count_lower f rem (i + 1)
    have hlen : (retryFrom f (i + 1) rem).2.1 - (i + 1) =
        ((retryFrom f (i + 1) rem).2.1 - (i + 2)) + 1 := by omega
    rw [ih (i + 1), hlen, List.range'_succ]

theorem retryFrom_all_fail {E A : Type} (f : Nat → AttemptOutcome E A)
    (e : Nat → E) :
    ∀ (rem i : Nat), (∀ j, i ≤ j → j ≤ i + rem → f j = AttemptOutcome.errMatching (e j)) →
      (retryFrom f i rem).1 = RetryResult.errMatching (e (i + rem)) := by
  intro rem
  induction rem with
  | zero =>
    intro i hall
    have := hall i le_rfl (by omega)
    simp [retryFrom, this]
  | succ rem ih =>
    intro i hall
    have hi := hall i le_rfl (by omega)
    have hrec := ih (i + 1) (fun j h1 h2 => hall j (by omega) (by omega))
    have harith : i + 1 + rem = i + (rem + 1) := by omega
    rw [harith] at hrec
    simp [retryFrom, hi, hrec]

/-- C4: the wrapped callable is invoked at most `max_retries + 1` times;
the retry loop sleeps exactly after the non-final attempts `0 .. n-2`, and
the delay slept after failing attempt `i` is
`min(base_delay * exponential_base ^ i, max_delay)` multiplied, when
jitter is enabled, by the factor `0.5 + random()/2`, which lies in
`[0.5, 1.0)` for any `random()` draw in `[0, 1)`; and when every attempt
fails with a matching exception the loop re-raises the failure of the last
attempt (index `max_retries`) unchanged.  The spec's example schedule
(base 1.0, exponential base 2.0, no jitter, cap 60) gives un-jittered
delays 1, 2, 4 after attempts 0, 1, 2. -/
theorem retry_backoff_spec :
    (∀ (E A : Type) (cfg : RetryCfg) (f : Nat → AttemptOutcome E A),
      (runRetry cfg f).2.1 ≤ cfg.maxRetries + 1) ∧
    (∀ (E A : Type) (cfg : RetryCfg) (f : Nat → AttemptOutcome E A),
      (runRetry cfg f).2.2 = List.range ((runRetry cfg f).2.1 - 1)) ∧
    (∀ (cfg : RetryCfg) (r : Nat → ℚ) (i : Nat), 0 ≤ r i → r i < 1 →
      (cfg.jitter = true →
        sleptDelay cfg r i =
          min (cfg.baseDelay * cfg.exponentialBase ^ i) cfg.maxDelay *
            (1/2 + r i / 2) ∧
        1/2 ≤ 1/2 + r i / 2 ∧ 1/2 + r i / 2 < 1) ∧
      (cfg.jitter = false →
        sleptDelay cfg r i =
          min (cfg.baseDelay * cfg.exponentialBase ^ i) cfg.maxDelay)) ∧
    (∀ (E A : Type) (cfg : RetryCfg) (f : Nat → AttemptOutcome E A) (e : Nat → E),
      (∀ j, j ≤ cfg.maxRetries → f j = AttemptOutcome.errMatching (e j)) →
      (runRetry cfg f).1 = RetryResult.errMatching (e cfg.maxRetries)) ∧
    (∀ r : Nat → ℚ,
      sleptDelay ⟨3, 1, 60, 2, false⟩ r 0 = 1 ∧
      sleptDelay ⟨3, 1, 60, 2, false⟩ r 1 = 2 ∧
      sleptDelay ⟨3, 1, 60, 2, false⟩ r 2 = 4) := by
  refine ⟨?_, ?_, ?_, ?_, ?_⟩
  · intro E A cfg f
    have := retryFrom_count_upper f cfg.maxRetries 0
    simpa [runRetry] using this
  · intro E A cfg f
    have := retryFrom_slept f cfg.maxRetries 0
    simpa [runRetry, List.range_eq_range'] using this
  · intro cfg r i h0 h1
    constructor
    · intro hj
      refine ⟨by simp [sleptDelay, rawDelay, hj], by linarith, by linarith⟩
    · intro hj
      simp [sleptDelay, rawDelay, hj]
  · intro E A cfg f e hall
    have := retryFrom_all_fail f e cfg.maxRetries 0 (fun j h1 h2 => hall j (by omega))
    simpa [runRetry] using this
  · intro r
    refine ⟨?_, ?_, ?_⟩ <;> simp [sleptDelay, rawDelay] <;> norm_num

/-- C4 witness: the retry theorem applied to a concrete configuration and
outcome sequence (three matching failures at max_retries = 2), with every
hypothesis discharged there. -/
theorem retry_backoff_spec_witness :
    (runRetry ⟨2, 1, 60, 2, true⟩
        (fun _ => AttemptOutcome.errMatching "boom" : Nat → AttemptOutcome String Nat)).1 =
      RetryResult.errMatching "boom" ∧
    (sleptDelay ⟨2, 1, 60, 2, true⟩ (fun _ => 0) 0 =
        min ((1 : ℚ) * 2 ^ 0) 60 * (1/2 + 0 / 2) ∧
      (1 : ℚ)/2 ≤ 1/2 + 0 / 2 ∧ (1 : ℚ)/2 + 0 / 2 < 1) := by
  constructor
  · exact retry_backoff_spec.2.2.2.1 String Nat ⟨2, 1, 60, 2, true⟩
      (fun _ => AttemptOutcome.errMatching "boom") (fun _ => "boom")
      (fun j _ => rfl)
  · exact (retry_backoff_spec.2.2.1 ⟨2, 1, 60, 2, true⟩ (fun _ => 0) 0
      le_rfl (by norm_num)).1 rfl

/-! ## C5: recall from the local cache -/

theorem get_mapping_ok (d : List (String × String)) (k dflt : String) :
    MemContent.get (MemContent.mapping d) k dflt =
      Except.ok (match List.find? (fun p => p.1 = k) d with
        | some p => p.2
        | none => dflt) := by
  rw [MemContent.get]
  cases List.find? (fun p => p.1 = k) d <;> rfl

theorem observation_mapping_ok (memoryType : MemoryType)
    (d : List (String × String)) :
    ∃ s, observationLines memoryType (MemContent.mapping d) = Except.ok s := by
  cases memoryType <;>
    simp [observationLines, get_mapping_ok, bind, Except.bind, pure, Except.pure]

theorem format_mapping_ok (agentName : String) (memoryType : MemoryType)
    (d : List (String × String)) (relations : List (String × List String))
    (created : String) :
    ∃ s, format_memory_content agentName memoryType (MemContent.mapping d)
      relations created = Except.ok s := by
  rcases observation_mapping_ok memoryType d with ⟨s, hs⟩
  cases hf : format_memory_content agentName memoryType (MemContent.mapping d)
      relations created with
  | ok s2 => exact ⟨s2, rfl⟩
  | error e =>
    simp only [format_memory_content, hs, bind, Except.bind, pure, Except.pure] at hf
    cases hf

theorem lastN_concat_mem {α : Type} (l : List α) (x : α) (n : Nat) (hn : 1 ≤ n) :
    x ∈ lastN n (l ++ [x]) := by
  rw [lastN]
  have hle : (l ++ [x]).length - n ≤ l.length := by
    simp only [List.length_append, List.length_singleton]
    omega
  rw [List.drop_append_of_le_length hle]
  simp

theorem find?_map_replace (key : String) (b : List CacheEntry) :
    ∀ cache : MemCache, (List.find? (fun p => p.1 = key) cache).isSome →
      List.find? (fun p => p.1 = key)
        (List.map (fun p => if p.1 = key then (key, b) else p) cache) =
        some (key, b) := by
  intro cache
  induction cache with
  | nil => simp
  | cons p rest ih =>
    intro h
    by_cases hp : p.1 = key
    · simp [List.find?, hp]
    · simp only [List.map_cons, if_neg hp]
      rw [List.find?_cons_of_neg _ (by simpa using hp)]
      apply ih
      rw [List.find?_cons_of_neg _ (by simpa using hp)] at h
      exact h

theorem cacheBucket_cacheSet (cache : MemCache) (key : String)
    (b : List CacheEntry) : cacheBucket (cacheSet cache key b) key = b := by
  rw [cacheSet]
  by_cases h : (List.find? (fun p => p.1 = key) cache).isSome
  · rw [if_pos h, cacheBucket, find?_map_replace key b cache h]
  · rw [if_neg h, cacheBucket]
    have hnone : List.find? (fun p => p.1 = key) cache = none := by
      cases hf : List.find? (fun p => p.1 = key) cache
      · rfl
      · rw [hf] at h; simp at h
    rw [List.find?_append, hnone]
    simp [List.find?]

/-- C5 (amended): a recall whose cache bucket for `"<agent>:<type>"` is
non-empty answers from the cache with **no** external search call,
returning `bucket[-limit:]` — for `limit ≥ 1` that is the bucket's most
recent `limit` entries, while `limit = 0` returns the entire bucket (see
the counterexample); and a `store_memory` of mapping content immediately
followed by `recall_memories` for the same agent and type returns a list
containing the just-stored content, again with no external search call. -/
theorem recall_cache_spec :
    (∀ (agent : String) (t : MemoryType) (limit : Nat) (hasClient : Bool)
       (cache : MemCache),
      1 ≤ limit →
      cacheBucket cache (agent ++ ":" ++ t.value) ≠ [] →
      recall_memories agent (some t) limit hasClient cache =
        ⟨lastN limit (cacheBucket cache (agent ++ ":" ++ t.value)), false⟩) ∧
    (∀ (agent : String) (t : MemoryType) (d : List (String × String))
       (relations : List (String × List String)) (timestamp : String)
       (hasClient : Bool) (cache : MemCache) (limit : Nat),
      1 ≤ limit →
      (recall_memories agent (some t) limit hasClient
          (store_memory agent t (MemContent.mapping d) relations timestamp
            hasClient cache).cache).searchedExternal = false ∧
      (⟨timestamp, MemContent.mapping d,
          ("agent-os/memory/" ++ t.value ++ "s") ++ "/" ++
            (agent ++ " - " ++ t.value ++ " - " ++ timestamp)⟩ : CacheEntry) ∈
        (recall_memories agent (some t) limit hasClient
          (store_memory agent t (MemContent.mapping d) relations timestamp
            hasClient cache).cache).entries) := by
  constructor
  · intro agent t limit hasClient cache hlim hne
    rw [recall_memories, if_pos (by simpa using hne)]
    rw [pySliceLast, if_neg (by omega)]
  · intro agent t d relations timestamp hasClient cache limit hlim
    rcases format_mapping_ok agent t d relations timestamp with ⟨s, hs⟩
    have hstore : (store_memory agent t (MemContent.mapping d) relations timestamp
        hasClient cache).cache =
        cacheSet cache (agent ++ ":" ++ t.value)
          (cacheBucket cache (agent ++ ":" ++ t.value) ++
            [⟨timestamp, MemContent.mapping d,
              ("agent-os/memory/" ++ t.value ++ "s") ++ "/" ++
                (agent ++ " - " ++ t.value ++ " - " ++ timestamp)⟩]) := by
      rw [store_memory, hs]
    rw [hstore, recall_memories]
    rw [cacheBucket_cacheSet]
    rw [if_pos (by simp)]
    refine ⟨rfl, ?_⟩
    rw [pySliceLast, if_neg (by omega)]
    exact lastN_concat_mem _ _ limit hlim

/-- C5 witness: the amended recall theorem applied at a concrete cache,
agent and limit, with its hypotheses discharged there. -/
theorem recall_cache_spec_witness :
    recall_memories "a" (some MemoryType.pattern) 10 true
      [("a:pattern", [⟨"t0", MemContent.plain "old", "p0"⟩])] =
      ⟨lastN 10 [⟨"t0", MemContent.plain "old", "p0"⟩], false⟩ ∧
    (recall_memories "a" (some MemoryType.pattern) 10 true
      (store_memory "a" MemoryType.pattern
        (MemContent.mapping [("pattern", "recurs")]) [] "t1" true []).cache).searchedExternal
      = false :=
  ⟨recall_cache_spec.1 "a" MemoryType.pattern 10 true
      [("a:pattern", [⟨"t0", MemContent.plain "old", "p0"⟩])] (by omega) (by decide),
   (recall_cache_spec.2 "a" MemoryType.pattern [("pattern", "recurs")] [] "t1"
      true [] 10 (by omega)).1⟩

/-- C5 counterexample: with `limit = 0` the cache hit path returns the
**entire** bucket (`bucket[-0:]` is `bucket[0:]` in Python), not the most
recent 0 entries, so the claim's "most recent `limit` entries" fails as
stated at `limit = 0`. -/
theorem recall_limit_zero_counterexample :
    (recall_memories "a" (some MemoryType.pattern) 0 false
        [("a:pattern", [⟨"t1", MemContent.plain "one", "p1"⟩,
          ⟨"t2", MemContent.plain "two", "p2"⟩])]).entries =
      [⟨"t1", MemContent.plain "one", "p1"⟩, ⟨"t2", MemContent.plain "two", "p2"⟩] ∧
    lastN 0 [(⟨"t1", MemContent.plain "one", "p1"⟩ : CacheEntry),
      ⟨"t2", MemContent.plain "two", "p2"⟩] = [] ∧
    ([(⟨"t1", MemContent.plain "one", "p1"⟩ : CacheEntry),
      ⟨"t2", MemContent.plain "two", "p2"⟩] : List CacheEntry) ≠ [] := by
  refine ⟨by decide, by decide, by decide⟩

/-! ## C10: store_memory with non-mapping content -/

/-- C10: for the five memory types whose Observations section reads
type-specific fields through mapping lookups (pattern, preference,
execution, insight, feedback), `store_memory` with a plain-string content
raises `AttributeError` inside `_format_memory_content`, which the
surrounding handler converts into an empty-string return value; the local
cache bucket is left untouched and no external write is issued. -/
theorem store_nonmapping_spec (agent : String) (t : MemoryType) (s : String)
    (relations : List (String × List String)) (timestamp : String)
    (hasClient : Bool) (cache : MemCache)
    (ht : t = MemoryType.pattern ∨ t = MemoryType.preference ∨
      t = MemoryType.execution ∨ t = MemoryType.insight ∨
      t = MemoryType.feedback) :
    store_memory agent t (MemContent.plain s) relations timestamp hasClient
      cache = ⟨"", cache, false⟩ := by
  have hobs : observationLines t (MemContent.plain s) = Except.error () := by
    rcases ht with rfl | rfl | rfl | rfl | rfl <;>
      simp [observationLines, MemContent.get, bind, Except.bind]
  have hfmt : format_memory_content agent t (MemContent.plain s) relations
      timestamp = Except.error () := by
    simp [format_memory_content, hobs, bind, Except.bind]
  rw [store_memory, hfmt]

/-- C10 witness: the non-mapping store theorem applied at a concrete agent,
type and cache, with the type hypothesis discharged there. -/
theorem store_nonmapping_spec_witness :
    store_memory "a" MemoryType.pattern (MemContent.plain "just text") [] "t1"
      true [("a:pattern", [⟨"t0", MemContent.plain "old", "p0"⟩])] =
      ⟨"", [("a:pattern", [⟨"t0", MemContent.plain "old", "p0"⟩])], false⟩ :=
  store_nonmapping_spec "a" MemoryType.pattern "just text" [] "t1" true
    [("a:pattern", [⟨"t0", MemContent.plain "old", "p0"⟩])] (Or.inl rfl)

/-! ## C6: scheduler execution history -/

theorem lastN_length {α : Type} (n : Nat) (l : List α) :
    (lastN n l).length = min n l.length := by
  rw [lastN, List.length_drop]
  omega

/-- C6 (amended): both paths append a record tagged `"scheduled"` or
`"manual"` respectively as the new last history entry; the scheduled
recording path (`record_execution`) trims the history to its most recent
1000 entries — the result is a suffix of the appended history of length
`min (old + 1) 1000`, so the oldest entries are the ones evicted — but the
manual path (`trigger_agent`) appends **without** trimming, so its result
always has length `old + 1`, exceeding 1000 whenever the history already
held 1000 or more entries (see the counterexample). -/
theorem scheduler_history_spec :
    (∀ (h : List ExecRecord) (ts an : String),
      (record_execution h ts an).length = min (h.length + 1) maxHistory) ∧
    (∀ (h : List ExecRecord) (ts an : String),
      record_execution h ts an <:+ h ++ [⟨ts, an, "scheduled"⟩]) ∧
    (∀ (h : List ExecRecord) (ts an : String),
      (record_execution h ts an).getLast? = some ⟨ts, an, "scheduled"⟩) ∧
    (∀ (h : List ExecRecord) (ts an : String),
      trigger_agent_append h ts an = h ++ [⟨ts, an, "manual"⟩] ∧
      (trigger_agent_append h ts an).length = h.length + 1 ∧
      (trigger_agent_append h ts an).getLast? = some ⟨ts, an, "manual"⟩) := by
  refine ⟨?_, ?_, ?_, ?_⟩
  · intro h ts an
    rw [record_execution]
    by_cases hc : maxHistory < (h ++ [(⟨ts, an, "scheduled"⟩ : ExecRecord)]).length
    · rw [if_pos hc, lastN_length]
      simp only [List.length_append, List.length_singleton] at hc ⊢
      omega
    · rw [if_neg hc]
      simp only [List.length_append, List.length_singleton] at hc ⊢
      omega
  · intro h ts an
    rw [record_execution]
    by_cases hc : maxHistory < (h ++ [(⟨ts, an, "scheduled"⟩ : ExecRecord)]).length
    · rw [if_pos hc, lastN]
      exact ⟨_, List.take_append_drop _ _⟩
    · rw [if_neg hc]
  · intro h ts an
    rw [record_execution]
    by_cases hc : maxHistory < (h ++ [(⟨ts, an, "scheduled"⟩ : ExecRecord)]).length
    · rw [if_pos hc, lastN]
      have hle : (h ++ [(⟨ts, an, "scheduled"⟩ : ExecRecord)]).length - maxHistory ≤
          h.length := by
        simp only [List.length_append, List.length_singleton]
        have : 1 ≤ maxHistory := by norm_num [maxHistory]
        omega
      rw [List.drop_append_of_le_length hle]
      exact List.getLast?_concat _
    · rw [if_neg hc]
      exact List.getLast?_concat _
  · intro h ts an
    refine ⟨rfl, by simp [trigger_agent_append], ?_⟩
    rw [trigger_agent_append]
    exact List.getLast?_concat _

/-- C6 counterexample: a manual trigger on a history already at the
1000-entry cap leaves 1001 entries — `trigger_agent` appends without
trimming, so the scheduler history does not stay within 1000 entries. -/
theorem scheduler_history_counterexample :
    (trigger_agent_append (List.replicate 1000 ⟨"t0", "a", "scheduled"⟩)
      "t1" "a").length = 1001 ∧ 1000 < 1001 := by
  constructor
  · rw [trigger_agent_append, List.length_append, List.length_replicate,
      List.length_singleton]
  · norm_num

/-! ## C8: tag clustering -/

theorem findClustersGo_mem (cooc : List (String × List String)) :
    ∀ (l : List (String × List String)) (processed : List String)
      (c : List String),
      c ∈ findClustersGo cooc l processed →
      ∃ t related, (t, related) ∈ l ∧
        c = t :: clusterMembers cooc t related ∧
        clusterMembers cooc t related ≠ [] := by
  intro l
  induction l with
  | nil =>
    intro _ _ h
    simp [findClustersGo] at h
  | cons p rest ih =>
    intro processed c hc
    obtain ⟨tag, related⟩ := p
    rw [findClustersGo] at hc
    by_cases hp : processed.contains tag
    · rw [if_pos hp] at hc
      rcases ih _ c hc with ⟨t, r, hmem, hcl, hne⟩
      exact ⟨t, r, List.mem_cons_of_mem _ hmem, hcl, hne⟩
    · rw [if_neg hp] at hc
      by_cases hm : clusterMembers cooc tag related = []
      · rw [if_pos hm] at hc
        rcases ih _ c hc with ⟨t, r, hmem, hcl, hne⟩
        exact ⟨t, r, List.mem_cons_of_mem _ hmem, hcl, hne⟩
      · rw [if_neg hm] at hc
        rcases List.mem_cons.mp hc with rfl | hc
        · exact ⟨tag, related, List.mem_cons_self _ _, rfl, hm⟩
        · rcases ih _ c hc with ⟨t, r, hmem, hcl, hne⟩
          exact ⟨t, r, List.mem_cons_of_mem _ hmem, hcl, hne⟩

/-- C8 (amended): tag clustering returns at most 5 clusters; every
returned cluster consists of a seed tag from the co-occurrence map
followed exactly by the tags `u ≠ seed` of the seed's co-occurrence set
whose own co-occurrence set shares **more than 2 elements** with the
seed's — the co-occurrence sets include the tags themselves, so two
co-occurring tags need only 1 additional shared tag, not 3
(see the counterexample); the `processed` set guards only which tags may
seed a cluster, not cluster membership, so an already-placed tag can be
appended to later clusters as well; in particular two tags co-occurring
with 3 additional shared co-occurring tags are placed in the same
cluster. -/
theorem tag_clusters_spec :
    (∀ cooc, (find_tag_clusters cooc).length ≤ 5) ∧
    (∀ cooc c, c ∈ find_tag_clusters cooc →
      ∃ t related, (t, related) ∈ cooc ∧
        c = t :: clusterMembers cooc t related ∧
        clusterMembers cooc t related ≠ []) ∧
    (∀ cooc t related u, u ∈ clusterMembers cooc t related ↔
      u ∈ related ∧ u ≠ t ∧ 2 < interCount (coocOf cooc u) related) ∧
    (∃ c ∈ find_tag_clusters
        [("X", ["X", "Y", "A", "B", "C"]), ("Y", ["X", "Y", "A", "B", "C"]),
         ("A", ["X", "Y", "A", "B", "C"]), ("B", ["X", "Y", "A", "B", "C"]),
         ("C", ["X", "Y", "A", "B", "C"])],
      "X" ∈ c ∧ "Y" ∈ c) := by
  refine ⟨?_, ?_, ?_, by decide⟩
  · intro cooc
    rw [find_tag_clusters]
    simpa using List.length_take_le 5 (findClustersGo cooc cooc [])
  · intro cooc c hc
    rw [find_tag_clusters] at hc
    exact findClustersGo_mem cooc cooc [] c (List.take_subset 5 _ hc)
  · intro cooc t related u
    rw [clusterMembers, List.mem_filter]
    simp

/-- C8 witness: the tag-clustering theorem's cluster-shape conjunct
applied to the concrete 4-tag co-occurrence map, with the membership
hypothesis discharged there. -/
theorem tag_clusters_spec_witness :
    ∃ t related,
      (t, related) ∈ [("X", ["X", "Y", "A", "B"]), ("Y", ["X", "Y", "A", "B"]),
        ("A", ["X", "Y", "A", "B"]), ("B", ["X", "Y", "A", "B"])] ∧
      ["X", "Y", "A", "B"] = t :: clusterMembers
        [("X", ["X", "Y", "A", "B"]), ("Y", ["X", "Y", "A", "B"]),
         ("A", ["X", "Y", "A", "B"]), ("B", ["X", "Y", "A", "B"])] t related ∧
      clusterMembers
        [("X", ["X", "Y", "A", "B"]), ("Y", ["X", "Y", "A", "B"]),
         ("A", ["X", "Y", "A", "B"]), ("B", ["X", "Y", "A", "B"])] t related ≠ [] :=
  tag_clusters_spec.2.1
    [("X", ["X", "Y", "A", "B"]), ("Y", ["X", "Y", "A", "B"]),
     ("A", ["X", "Y", "A", "B"]), ("B", ["X", "Y", "A", "B"])]
    ["X", "Y", "A", "B"] (by decide)

/-- C8 counterexample: in a vault whose only document carries the tags X,
Y, A, B, every two tags share just 2 additional co-occurring tags, yet
one 4-tag cluster is produced (the intersection of the co-occurrence sets
has 4 > 2 elements because it counts X and Y themselves); and with two
separate documents tagged X, A, B, C and Y, A, B, C the tags A, B, C are
each placed in **two** clusters, refuting "each tag assigned to at most
one cluster". -/
theorem tag_clusters_counterexample :
    find_tag_clusters
        [("X", ["X", "Y", "A", "B"]), ("Y", ["X", "Y", "A", "B"]),
         ("A", ["X", "Y", "A", "B"]), ("B", ["X", "Y", "A", "B"])] =
      [["X", "Y", "A", "B"]] ∧
    ((coocOf [("X", ["X", "Y", "A", "B"]), ("Y", ["X", "Y", "A", "B"]),
        ("A", ["X", "Y", "A", "B"]), ("B", ["X", "Y", "A", "B"])] "X").filter
      (fun u =>
        (coocOf [("X", ["X", "Y", "A", "B"]), ("Y", ["X", "Y", "A", "B"]),
          ("A", ["X", "Y", "A", "B"]), ("B", ["X", "Y", "A", "B"])] "Y").contains u
        && decide (u ≠ "X") && decide (u ≠ "Y"))).length = 2 ∧
    find_tag_clusters
        [("X", ["X", "A", "B", "C"]), ("A", ["A", "X", "B", "C"]),
         ("B", ["B", "X", "A", "C"]), ("C", ["C", "X", "A", "B"]),
         ("Y", ["Y", "A", "B", "C"])] =
      [["X", "A", "B", "C"], ["Y", "A", "B", "C"]] ∧
    ("A" ∈ (["X", "A", "B", "C"] : List String) ∧
     "A" ∈ (["Y", "A", "B", "C"] : List String)) := by
  refine ⟨by decide, by decide, by decide, by decide⟩

/-! ## C9: parallel task execution -/

theorem perm_insertByPriority (t : PTask) (l : List PTask) :
    List.Perm (insertByPriority t l) (t :: l) := by
  induction l with
  | nil => rfl
  | cons u us ih =>
    rw [insertByPriority]
    by_cases h : t.priority ≤ u.priority
    · rw [if_pos h]
    · rw [if_neg h]
      exact (ih.cons u).trans (List.Perm.swap t u us)

theorem perm_sortByPriority (l : List PTask) : List.Perm (sortByPriority l) l := by
  induction l with
  | nil => rfl
  | cons t ts ih =>
    rw [sortByPriority, List.foldr_cons]
    exact (perm_insertByPriority t _).trans
      ((show List.foldr insertByPriority [] ts = sortByPriority ts from rfl) ▸
        ih.cons t)

theorem buildDict_nodup_aux :
    ∀ (l acc : List (String × PVal)),
      ((acc ++ l).map Prod.fst).Nodup →
      l.foldl (fun m p => dictInsert m p.1 p.2) acc = acc ++ l := by
  intro l
  induction l with
  | nil => intro acc _; simp
  | cons p rest ih =>
    intro acc hnd
    have hnot : ∀ q ∈ acc, ¬(q.1 = p.1) := by
      intro q hq hqe
      have h1 : q.1 ∈ (acc.map Prod.fst) := List.mem_map.mpr ⟨q, hq, rfl⟩
      have h2 : q.1 ∈ ((p :: rest).map Prod.fst) := by
        rw [hqe]; exact List.mem_map.mpr ⟨p, List.mem_cons_self _ _, rfl⟩
      rw [List.map_append, List.nodup_append] at hnd
      exact hnd.2.2 h1 h2
    have hfind : List.find? (fun q => q.1 = p.1) acc = none :=
      List.find?_eq_none.mpr (fun q hq => by simpa using hnot q hq)
    rw [List.foldl_cons]
    have hins : dictInsert acc p.1 p.2 = acc ++ [p] := by
      rw [dictInsert, hfind]
      simp
    rw [hins, ih (acc ++ [p]) (by simpa using hnd)]
    simp

theorem find?_of_mem_nodup :
    ∀ (l : List (String × PVal)) (k : String) (v : PVal),
      (l.map Prod.fst).Nodup → (k, v) ∈ l →
      List.find? (fun p => p.1 = k) l = some (k, v) := by
  intro l
  induction l with
  | nil => intro k v _ h; simp at h
  | cons q rest ih =>
    intro k v hnd hmem
    rcases List.mem_cons.mp hmem with rfl | hmem
    · exact List.find?_cons_of_pos _ (by simp)
    · have hqk : ¬(q.1 = k) := by
        intro hqe
        rw [List.map_cons, List.nodup_cons] at hnd
        exact hnd.1 (hqe ▸ List.mem_map.mpr ⟨(k, v), hmem, rfl⟩)
      rw [List.find?_cons_of_neg _ (by simpa using hqk)]
      rw [List.map_cons, List.nodup_cons] at hnd
      exact ih k v hnd.2 hmem

/-- C9 (amended): when the batch's task names are pairwise distinct, the
result map has one entry per task and each task's name maps to its own
outcome — its real result, or `{"error": <message>}` when its callable
raised (a timeout included) — independent of every sibling's outcome, and
the call itself returns normally (it is a total function of the
per-task outcomes); duplicate task names, however, collapse into a single
dict entry (see the counterexample). The concrete conjunct shows a 3-task
batch with one failure: two real values, one error entry, no raise. -/
theorem parallel_exec_spec :
    (∀ tasks : List PTask, (tasks.map PTask.name).Nodup →
      (execute_parallel tasks).length = tasks.length ∧
      ∀ t ∈ tasks,
        List.find? (fun p => p.1 = t.name) (execute_parallel tasks) =
          some (t.name, wrapOutcome t.outcome)) ∧
    execute_parallel [⟨"t1", 1, Except.ok (PVal.num 1)⟩,
        ⟨"t2", 2, Except.error "boom"⟩, ⟨"t3", 3, Except.ok (PVal.str "done")⟩] =
      [("t1", PVal.num 1), ("t2", PVal.dict [("error", PVal.str "boom")]),
       ("t3", PVal.str "done")] := by
  constructor
  · intro tasks hnd
    have hperm : List.Perm (sortByPriority tasks) tasks := perm_sortByPriority tasks
    have hkeys : (((sortByPriority tasks).map
        (fun t => (t.name, wrapOutcome t.outcome))).map Prod.fst).Nodup := by
      have : ((sortByPriority tasks).map
          (fun t => (t.name, wrapOutcome t.outcome))).map Prod.fst =
          (sortByPriority tasks).map PTask.name := by
        simp [Function.comp]
      rw [this]
      exact ((hperm.map PTask.name).nodup_iff).mpr hnd
    have hbd : execute_parallel tasks =
        (sortByPriority tasks).map (fun t => (t.name, wrapOutcome t.outcome)) := by
      rw [execute_parallel, buildDict]
      exact buildDict_nodup_aux _ [] (by simpa using hkeys)
    constructor
    · rw [hbd, List.length_map]
      exact hperm.length_eq
    · intro t ht
      rw [hbd]
      exact find?_of_mem_nodup _ t.name (wrapOutcome t.outcome) hkeys
        (List.mem_map.mpr ⟨t, hperm.mem_iff.mpr ht, rfl⟩)
  · rfl

/-- C9 witness: the parallel-execution theorem applied to a concrete
2-task batch with distinct names, its Nodup hypothesis discharged there. -/
theorem parallel_exec_spec_witness :
    (execute_parallel [⟨"a", 1, Except.ok (PVal.num 7)⟩,
      ⟨"b", 2, Except.error "x"⟩]).length = 2 :=
  (parallel_exec_spec.1 [⟨"a", 1, Except.ok (PVal.num 7)⟩,
    ⟨"b", 2, Except.error "x"⟩] (by decide)).1

/-- C9 counterexample: two tasks sharing the name `"t"` produce a
single-entry result map — the later task (in priority order) overwrites
the earlier one's result in the dict comprehension — so the map does not
have one entry per task, and the succeeding duplicate's real result is
lost. -/
theorem parallel_exec_counterexample :
    execute_parallel [⟨"t", 1, Except.ok (PVal.num 1)⟩,
        ⟨"t", 2, Except.error "boom"⟩] =
      [("t", PVal.dict [("error", PVal.str "boom")])] ∧
    (execute_parallel [⟨"t", 1, Except.ok (PVal.num 1)⟩,
        ⟨"t", 2, Except.error "boom"⟩]).length = 1 ∧
    ([⟨"t", 1, Except.ok (PVal.num 1)⟩,
        ⟨"t", 2, Except.error "boom"⟩] : List PTask).length = 2 ∧
    (1 : Nat) ≠ 2 :=
  ⟨rfl, rfl, rfl, by decide⟩

/-! ## C7: insight derivation -/

/-- C7 (code bug): the statistics guard reads `not isinstance(..., dict)`,
so a statistics result that **is** a dict — the shape every successful
task result (and every `{"error": ...}` failure) has — never produces the
note-count insight: with the statistics task succeeded and reporting 150
notes (> 100), the derived insight list is empty, against the claim that
it contains the note-count sentence.  The other branches are unaffected:
with six orphaned notes alongside the same statistics dict, exactly the
orphan sentence is produced, and still no note-count sentence. -/
theorem insights_statistics_bug :
    generate_insights
        [("statistics", PVal.dict [("total_notes", PVal.num 150),
          ("total_words", PVal.num 5000)])] = Except.ok [] ∧
    generate_insights
        [("statistics", PVal.dict [("total_notes", PVal.num 150)]),
         ("orphaned_notes", PVal.list [PVal.str "o1", PVal.str "o2",
           PVal.str "o3", PVal.str "o4", PVal.str "o5", PVal.str "o6"])] =
      Except.ok [Insight.orphanCount 6] :=
  ⟨rfl, rfl⟩

end Copilot
